import Mathlib

/-!
Shallow embedding of the Hough-voting detection pass of
`src/lib/hough_voting_layer/hough_voting_op.cc`.

Floating-point scalars are modelled as rationals.  Quantities supplied by
headers that are not part of this repository snapshot (the `TransHyp` /
`Hypothesis` helpers of `ransac.h` / `Hypothesis.h`, `getBB3D` / `getBB2D` /
`getIoU` of `detection.h`, the NLopt optimizer, the random sources `irand`
and `std::negative_binomial_distribution`, and the `PI` macro) are modelled
abstractly as components of an `Ext` record; their concrete behavior is
irrelevant to the structural properties proved below, and every use site
mirrors the call in the source.  Random draws are modelled as explicit
deterministic streams, which renders the sequential semantics of the
source's loops (the OpenMP pragmas are ignored; the state produced is the
one of the sequential elaboration of the loops in program order).
-/

namespace Hough

/-- Mirror of `TransHyp` (declared in the external `ransac.h`), restricted to
the fields this translation unit reads and writes: class id, current 2D
center, inlier correspondence list, inlier count, pixels examined, pixel
budget, refinement-step counter.  The constructor
`TransHyp(objID, center)` zero-initializes the remaining fields. -/
structure TransHyp where
  objID : Nat
  center : ℚ × ℚ
  inlierPts2D : List ((ℚ × ℚ) × (ℚ × ℚ))
  inliers : Nat
  effPixels : Nat
  maxPixels : Nat
  refSteps : Nat
deriving DecidableEq, Repr

/-- An axis-aligned 2D rectangle (`cv::Rect`): corner plus width/height. -/
structure RectQ where
  x : ℚ
  y : ℚ
  w : ℚ
  h : ℚ
deriving DecidableEq, Repr

/-- The camera intrinsics written into `camMat` by `estimateCenter`. -/
structure Cam where
  fx : ℚ
  fy : ℚ
  px : ℚ
  py : ℚ
deriving DecidableEq, Repr

/-- One output record (`cv::Vec<float, 13>`): batch index, class id, box
corners, quaternion, translation. -/
structure Roi where
  batch : ℚ
  cls : ℚ
  x1 : ℚ
  y1 : ℚ
  x2 : ℚ
  y2 : ℚ
  qw : ℚ
  qx : ℚ
  qy : ℚ
  qz : ℚ
  tx : ℚ
  ty : ℚ
  tz : ℚ
deriving DecidableEq, Repr

/-- Mirror of the `DataForOpt` struct handed to the NLopt callback. -/
structure DataForOpt where
  imageWidth : Nat
  imageHeight : Nat
  rx : ℚ
  ry : ℚ
  bb2D : RectQ
  bb3D : List (ℚ × ℚ × ℚ)
  camMat : Cam

/-- External collaborators of this translation unit.  Each field stands for a
function whose definition lives outside `src/` (see the module docstring);
random sources are deterministic streams indexed by draw counters. -/
structure Ext where
  /-- Stream backing `irand` in the sampling loop; a draw of `irand(0, n)`
  is modelled as `rand k % n` for the k-th draw. -/
  rand : Nat → Nat
  /-- Stream backing `std::negative_binomial_distribution` applied to the
  default-constructed `std::mt19937`: the k-th variate drawn after a fresh
  default construction, at the given success rate. -/
  skip : ℚ → Nat → Nat
  /-- Stream backing `irand` in `filterInliers2D`. -/
  randf : Nat → Nat
  /-- `Hypothesis::calcCenter` (also used by the two-point constructor):
  least-squares center of a list of (object vote, pixel) correspondences. -/
  calcCenter : List ((ℚ × ℚ) × (ℚ × ℚ)) → ℚ × ℚ
  /-- `TransHyp::compute_width_height`: box extent estimate of a hypothesis. -/
  computeWH : TransHyp → ℚ × ℚ
  /-- `getBB3D` of `detection.h`: 3D box corners from a class extent. -/
  getBB3D : ℚ × ℚ × ℚ → List (ℚ × ℚ × ℚ)
  /-- `getBB2D` of `detection.h`: projection of a 3D box to a 2D rectangle
  under a 6-parameter pose. -/
  getBB2D : Nat → Nat → List (ℚ × ℚ × ℚ) → Cam → (Fin 6 → ℚ) → RectQ
  /-- `getIoU` of `detection.h`. -/
  getIoU : RectQ → RectQ → ℚ
  /-- The NLopt `LN_NELDERMEAD` bounded minimizer:
  objective, start point, lower bounds, upper bounds, evaluation budget. -/
  optimize : ((Fin 6 → ℚ) → ℚ) → (Fin 6 → ℚ) → (Fin 6 → ℚ) → (Fin 6 → ℚ) → Nat → (Fin 6 → ℚ)
  /-- `jp::cv2our` composed with the quaternion conversion: a 6-parameter
  pose vector to (quaternion (w,x,y,z), translation). -/
  cv2our : (Fin 6 → ℚ) → (ℚ × ℚ × ℚ × ℚ) × (ℚ × ℚ × ℚ)
  /-- The `PI` macro used by `poseWithOpt` (not defined in this file's
  sources; any rational stand-in). -/
  PI : ℚ

/-- A concrete inhabitant of `Ext`, used to instantiate theorems. -/
def extDefault : Ext where
  rand := fun _ => 0
  skip := fun _ _ => 0
  randf := fun _ => 0
  calcCenter := fun _ => (0, 0)
  computeWH := fun _ => (0, 0)
  getBB3D := fun _ => []
  getBB2D := fun _ _ _ _ _ => ⟨0, 0, 0, 0⟩
  getIoU := fun _ _ => 0
  optimize := fun _ v _ _ _ => v
  cv2our := fun _ => ((1, 0, 0, 0), (0, 0, 0))
  PI := 314159265358979323846 / 10 ^ 20

/-! ### Label partitioner (`getLabels`) -/

/-- Pixel traversal order of the nested loops `for x in [0,w) for y in [0,h)`
over flat indices `y*w + x`. -/
def pixelOrder (w h : Nat) : List Nat :=
  (List.range w).flatMap fun x => (List.range h).map fun y => y * w + x

/-- Loop-faithful rendering of the bucket-building loop of `getLabels`: each
pixel's flat index is appended to the bucket of its label.  (The source runs
this under an OpenMP pragma; the sequential program-order semantics is
modelled.) -/
def buildLabelsLoop (lm : Nat → Nat) (w h : Nat) : Nat → List Nat :=
  (pixelOrder w h).foldl (fun acc p j => if j = lm p then acc j ++ [p] else acc j)
    (fun _ => [])

/-- Closed form of the buckets: appending in traversal order yields the
traversal-order filter of the pixel list (proved equal to the loop below). -/
def buildLabels (lm : Nat → Nat) (w h : Nat) : Nat → List Nat :=
  fun j => (pixelOrder w h).filter fun p => lm p = j

/-- The `object_ids` loop of `getLabels`: classes `1 .. num_classes - 1`
whose bucket holds strictly more than `minArea` pixels. -/
def activeIds (labels : Nat → List Nat) (numClasses minArea : Nat) : List Nat :=
  ((List.range numClasses).drop 1).filter fun i => minArea < (labels i).length

/-- `getBb3Ds`: one 3D bounding box per foreground class, from its extent. -/
def getBb3Ds (E : Ext) (extents : Nat → ℚ) (numClasses : Nat) : List (List (ℚ × ℚ × ℚ)) :=
  ((List.range numClasses).drop 1).map fun i =>
    E.getBB3D (extents (i * 3), extents (i * 3 + 1), extents (i * 3 + 2))

/-! ### Geometry primitives -/

/-- `getMode2D`: the per-class 2D vote stored for flat pixel index `p`
(`offset = 2*objID + 2*num_classes*(pt.y*width + pt.x)` and
`pt.y*width + pt.x` recovers `p`). -/
def getMode2D (vert : Nat → ℚ) (numClasses objID p : Nat) : ℚ × ℚ :=
  (vert (2 * objID + 2 * numClasses * p), vert (2 * objID + 2 * numClasses * p + 1))

/-- The comparison `point2line(x, n, p) < thr` of the inlier check, rendered
division- and root-free: with `n' = (-n.y, n.x)`, the distance is
`|n'⬝(x-p)| / ‖n'‖`, so the strict comparison (for a nonnegative threshold)
holds iff `(n'⬝(x-p))² < thr²·‖n'‖²` and `‖n'‖² > 0`.  A zero vote vector
makes the source compute `0/0` (NaN), which compares false; the `0 < den`
conjunct reproduces that. -/
def point2lineLt (x n p : ℚ × ℚ) (thr : ℚ) : Bool :=
  let n1 := -n.2
  let n2 := n.1
  let a := n1 * (x.1 - p.1) + n2 * (x.2 - p.2)
  let den := n1 * n1 + n2 * n2
  decide (0 < den ∧ a * a < thr * thr * den)

/-! ### Inlier counting (`countInliers2D`) -/

/-- The pixel scan of `countInliers2D`.  Returns (inlier correspondences in
visit order, inlier count, pixels examined).  `fuel` bounds the recursion;
every step advances `ptIdx` by at least one, so `fuel = pts.length` never
runs out before the loop guard `ptIdx < maxPt` fails.  The draw counter `k`
advances exactly when the source calls `distribution(generator)`. -/
def scanInliers (E : Ext) (vert : Nat → ℚ) (thr : ℚ) (width numClasses objID : Nat)
    (center : ℚ × ℚ) (pts : List Nat) (sr : ℚ) :
    Nat → Nat → Nat → List ((ℚ × ℚ) × (ℚ × ℚ)) × Nat × Nat
  | 0, _, _ => ([], 0, 0)
  | fuel + 1, ptIdx, k =>
    if ptIdx < pts.length then
      let p := pts.getD ptIdx 0
      let obj := getMode2D vert numClasses objID p
      let pt2D : ℚ × ℚ := ((p % width : Nat), (p / width : Nat))
      let rest := scanInliers E vert thr width numClasses objID center pts sr fuel
        (if sr < 1 then ptIdx + max 1 (E.skip sr k) else ptIdx + 1)
        (if sr < 1 then k + 1 else k)
      if point2lineLt center obj pt2D thr then
        ((obj, pt2D) :: rest.1, rest.2.1 + 1, rest.2.2 + 1)
      else
        (rest.1, rest.2.1, rest.2.2 + 1)
    else ([], 0, 0)

/-- `countInliers2D`: reset the inlier data, grow the pixel budget by
`pixelBatch`, and rebuild the inlier list by skip-sampling the class's pixel
list.  The `std::mt19937` is default-constructed on every call, so the same
fixed stream `E.skip` serves every invocation. -/
def countInliers2D (E : Ext) (vert : Nat → ℚ) (labels : Nat → List Nat) (thr : ℚ)
    (width numClasses pixelBatch : Nat) (hyp : TransHyp) : TransHyp :=
  let maxPixels := hyp.maxPixels + pixelBatch
  let pts := labels hyp.objID
  let sr : ℚ := (maxPixels : ℚ) / (pts.length : ℚ)
  let r := scanInliers E vert thr width numClasses hyp.objID hyp.center pts sr
    pts.length 0 0
  { hyp with inlierPts2D := r.1, inliers := r.2.1, effPixels := r.2.2,
             maxPixels := maxPixels }

/-! ### Refinement (`filterInliers2D`, `updateHyp2D`) -/

/-- `filterInliers2D`: when the correspondence list has reached `maxInliers`,
replace it by `maxInliers` independent uniform draws (with replacement). -/
def filterInliers2D (E : Ext) (hyp : TransHyp) (maxInliers : Nat) : TransHyp :=
  if hyp.inlierPts2D.length < maxInliers then hyp
  else
    { hyp with inlierPts2D :=
        (List.range maxInliers).map fun i =>
          hyp.inlierPts2D.getD (E.randf i % hyp.inlierPts2D.length) ((0, 0), (0, 0)) }

/-- `updateHyp2D`: with fewer than 4 correspondences, do nothing; otherwise
thin the correspondences and recompute the center by the least-squares fit. -/
def updateHyp2D (E : Ext) (hyp : TransHyp) (maxPixels : Nat) : TransHyp :=
  if hyp.inlierPts2D.length < 4 then hyp
  else
    let hyp' := filterInliers2D E hyp maxPixels
    { hyp' with center := E.calcCenter hyp'.inlierPts2D }

/-- One working-queue entry's refinement step: `updateHyp2D` followed by the
unconditional `refSteps++` of the refinement loop. -/
def refineOne (E : Ext) (maxPixels : Nat) (hyp : TransHyp) : TransHyp :=
  let hyp' := updateHyp2D E hyp maxPixels
  { hyp' with refSteps := hyp'.refSteps + 1 }

/-! ### The preemptive refinement loop of `estimateCenter`

The hypothesis registry (`std::map<jp::id_t, std::vector<TransHyp>>`) is
modelled as an association list ordered by class id, one entry per active
class (an entry the sampler never filled is an inert empty bucket, which the
queue, the cull and the output loop all ignore, matching the absent map
entry of the source).  `getWorkingQueue` places a hypothesis in the queue
iff its bucket still holds more than one hypothesis or its own `refSteps`
is below `maxIt`; that predicate only reads the hypothesis's own bucket, so
each loop phase factors bucket-wise. -/

/-- The membership test of `getWorkingQueue` for a hypothesis inside its
bucket. -/
def inQueue (refIt : Nat) (bucket : List TransHyp) (hyp : TransHyp) : Bool :=
  decide (1 < bucket.length) || decide (hyp.refSteps < refIt)

/-- Configuration threaded through the refinement loop, carrying the
`estimateCenter` locals used by its body. -/
structure LoopCfg where
  E : Ext
  vert : Nat → ℚ
  labels : Nat → List Nat
  thr : ℚ
  width : Nat
  numClasses : Nat
  pixelBatch : Nat
  maxPixels : Nat
  refIt : Nat

/-- The per-class registry state. -/
abbrev HypState := List (Nat × List TransHyp)

/-- Phase 1 on one bucket: `countInliers2D` on every queue member. -/
def countBucket (C : LoopCfg) (bucket : List TransHyp) : List TransHyp :=
  bucket.map fun h =>
    if inQueue C.refIt bucket h then
      countInliers2D C.E C.vert C.labels C.thr C.width C.numClasses C.pixelBatch h
    else h

/-- Phase 2 on one bucket: `std::sort` by the hypothesis comparison, then
`erase(begin + size/2, end)`, keeping the first `size/2` entries.  Modelled
from the spec: the comparison (declared in the external `ransac.h`) ranks a
higher inlier count better, ties broken by insertion order; a stable
descending-by-inliers sort realizes that. -/
def hypRank (a b : TransHyp) : Prop :=
  b.inliers ≤ a.inliers

instance : DecidableRel hypRank := fun a b => Nat.decLe b.inliers a.inliers

instance : IsTotal TransHyp hypRank :=
  ⟨fun a b => Nat.le_total b.inliers a.inliers⟩

instance : IsTrans TransHyp hypRank :=
  ⟨fun _ _ _ h1 h2 => Nat.le_trans h2 h1⟩

def cullClass (bucket : List TransHyp) : List TransHyp :=
  if 1 < bucket.length then
    (List.insertionSort hypRank bucket).take (bucket.length / 2)
  else bucket

/-- Phase 3 on one bucket: `updateHyp2D` plus `refSteps++` on every member of
the freshly recomputed queue. -/
def refineBucket (C : LoopCfg) (bucket : List TransHyp) : List TransHyp :=
  bucket.map fun h =>
    if inQueue C.refIt bucket h then refineOne C.E C.maxPixels h else h

/-- One iteration of the preemptive RANSAC loop on one bucket. -/
def bucketBody (C : LoopCfg) (bucket : List TransHyp) : List TransHyp :=
  refineBucket C (cullClass (countBucket C bucket))

/-- One iteration of the loop on the whole registry. -/
def loopBody (C : LoopCfg) (st : HypState) : HypState :=
  st.map fun kh => (kh.1, bucketBody C kh.2)

/-- The loop guard `!workingQueue.empty()`. -/
def queueNonempty (refIt : Nat) (st : HypState) : Bool :=
  st.any fun kh => kh.2.any (inQueue refIt kh.2)

/-- Weight of one hypothesis in the termination measure. -/
def hypWeight (refIt : Nat) (hyp : TransHyp) : Nat :=
  1 + (refIt - hyp.refSteps)

/-- Bucket weight in the termination measure. -/
def phiB (refIt : Nat) (bucket : List TransHyp) : Nat :=
  (bucket.map (hypWeight refIt)).sum

/-- Termination measure of the loop: total hypothesis weight. -/
def phi (refIt : Nat) (st : HypState) : Nat :=
  (st.map fun kh => phiB refIt kh.2).sum

/-- The refinement loop with an explicit iteration bound. -/
def ransacLoopFuel (C : LoopCfg) : Nat → HypState → HypState
  | 0, st => st
  | fuel + 1, st =>
    if queueNonempty C.refIt st then ransacLoopFuel C fuel (loopBody C st) else st

/-- The `while(!workingQueue.empty())` loop: `phi` strictly decreases on
every iteration (proved below), so `phi` of the start state bounds the
number of iterations and this equals the source's unbounded loop. -/
def ransacLoop (C : LoopCfg) (st : HypState) : HypState :=
  ransacLoopFuel C (phi C.refIt st) st

/-! ### Hypothesis sampling -/

/-- One slot of the sampling loop (`ransacIterations` slots).  Each slot
draws a class id from the active list, rejects the background id, draws two
pixels of that class, reads their votes, and builds a hypothesis whose
center is the two-correspondence fit.  `samplePoint2D` always succeeds, so
apart from the background guard a slot never retries; the guard is proved
dead below, making the single attempt faithful to the source's retry loop. -/
def sampleSlot (E : Ext) (vert : Nat → ℚ) (ids : List Nat) (labels : Nat → List Nat)
    (width numClasses slot : Nat) : Option TransHyp :=
  let objID := ids.getD (E.rand (3 * slot) % ids.length) 0
  if objID = 0 then none
  else
    let pts := labels objID
    let p1 := pts.getD (E.rand (3 * slot + 1) % pts.length) 0
    let p2 := pts.getD (E.rand (3 * slot + 2) % pts.length) 0
    let pt1 : ℚ × ℚ := ((p1 % width : Nat), (p1 / width : Nat))
    let pt2 : ℚ × ℚ := ((p2 % width : Nat), (p2 / width : Nat))
    let obj1 := getMode2D vert numClasses objID p1
    let obj2 := getMode2D vert numClasses objID p2
    let center := E.calcCenter [(obj1, pt1), (obj2, pt2)]
    some ⟨objID, center, [], 0, 0, 0, 0⟩

/-- `sampleSlot` with the background-rejection branch removed. -/
def sampleSlotNoGuard (E : Ext) (vert : Nat → ℚ) (ids : List Nat) (labels : Nat → List Nat)
    (width numClasses slot : Nat) : Option TransHyp :=
  let objID := ids.getD (E.rand (3 * slot) % ids.length) 0
  let pts := labels objID
  let p1 := pts.getD (E.rand (3 * slot + 1) % pts.length) 0
  let p2 := pts.getD (E.rand (3 * slot + 2) % pts.length) 0
  let pt1 : ℚ × ℚ := ((p1 % width : Nat), (p1 / width : Nat))
  let pt2 : ℚ × ℚ := ((p2 % width : Nat), (p2 / width : Nat))
  let obj1 := getMode2D vert numClasses objID p1
  let obj2 := getMode2D vert numClasses objID p2
  let center := E.calcCenter [(obj1, pt1), (obj2, pt2)]
  some ⟨objID, center, [], 0, 0, 0, 0⟩

/-- Initial registry: the hypotheses of the 256 slots, bucketed per class in
slot order under the sampler's mutual exclusion, keys in `std::map` order
(ascending, as produced by `activeIds`). -/
def initialState (E : Ext) (vert : Nat → ℚ) (ids : List Nat) (labels : Nat → List Nat)
    (width numClasses ransacIterations : Nat) : HypState :=
  let hyps := (List.range ransacIterations).filterMap
    (sampleSlot E vert ids labels width numClasses)
  ids.map fun k => (k, hyps.filter fun h => h.objID = k)

/-! ### Pose optimization (`optEnergy`, `poseWithOpt`) -/

/-- The NLopt callback: negative IoU between the projected 3D box and the
inferred 2D box. -/
def optEnergy (E : Ext) (data : DataForOpt) (pose : Fin 6 → ℚ) : ℚ :=
  -(E.getIoU (E.getBB2D data.imageWidth data.imageHeight data.bb3D data.camMat pose)
      data.bb2D)

/-- `poseWithOpt`: box bounds of half-width `PI` per rotation axis, `0.1` in
XY and `0.5` in Z around the start vector, minimizing `optEnergy` under the
evaluation budget. -/
def poseWithOpt (E : Ext) (vec : Fin 6 → ℚ) (data : DataForOpt) (iterations : Nat) :
    Fin 6 → ℚ :=
  let rotRange := 180 * (E.PI / 180)
  let tRangeXY : ℚ := 1 / 10
  let tRangeZ : ℚ := 1 / 2
  let lb : Fin 6 → ℚ :=
    ![vec 0 - rotRange, vec 1 - rotRange, vec 2 - rotRange,
      vec 3 - tRangeXY, vec 4 - tRangeXY, vec 5 - tRangeZ]
  let ub : Fin 6 → ℚ :=
    ![vec 0 + rotRange, vec 1 + rotRange, vec 2 + rotRange,
      vec 3 + tRangeXY, vec 4 + tRangeXY, vec 5 + tRangeZ]
  E.optimize (optEnergy E data) vec lb ub iterations

/-! ### Result assembly -/

/-- One jittered record, from the primary box data `(x1, y1, w, h)` and the
shift signs `(sx, sy) = ±1/20`.  The source assigns slot 4 twice in a row —
`roi(4) = roi(2) + w; roi(4) = roi(3) + h;` — so the first store is dead,
slot 4 ends holding `roi(3) + h`, and slot 5 keeps its previous value. -/
def jitterRoi (r : Roi) (x1 y1 w h sx sy : ℚ) : Roi :=
  let v2 := x1 + sx * w
  let v3 := y1 + sy * h
  let _v4 := v2 + w
  let v4 := v3 + h
  { r with x1 := v2, y1 := v3, x2 := v4 }

/-- The per-hypothesis tail of `estimateCenter`: box from the refined center
and the width/height estimate (clamped to the image), initial pose guess,
bounded pose optimization (budget `poseIterations = 100`), conversion to
quaternion plus translation, the 10%-expanded projected box, and the five
output records (primary plus four jittered). -/
def outputHyp (E : Ext) (cam : Cam) (width height : Nat)
    (bb3Ds : List (List (ℚ × ℚ × ℚ))) (batch : Nat) (hyp : TransHyp) : List Roi :=
  let wh := E.computeWH hyp
  let r2 := max (hyp.center.1 - wh.1 / 2) 0
  let r3 := max (hyp.center.2 - wh.2 / 2) 0
  let r4 := min (hyp.center.1 + wh.1 / 2) (width : ℚ)
  let r5 := min (hyp.center.2 + wh.2 / 2) (height : ℚ)
  let bb2D : RectQ := ⟨r2, r3, r4 - r2, r5 - r3⟩
  let cx := (r2 + r4) / 2
  let cy := (r3 + r5) / 2
  let rx := (cx - cam.px) / cam.fx
  let ry := (cy - cam.py) / cam.fy
  let bb3D := bb3Ds.getD (hyp.objID - 1) []
  let data : DataForOpt := ⟨width, height, rx, ry, bb2D, bb3D, cam⟩
  let vec0 : Fin 6 → ℚ := ![0, 0, 0, rx, ry, 1]
  let vec := poseWithOpt E vec0 data 100
  let qt := E.cv2our vec
  let bbp := E.getBB2D width height bb3D cam vec
  let x1 := bbp.x - (1 / 10) * bbp.w
  let y1 := bbp.y - (1 / 10) * bbp.h
  let x2 := bbp.x + (11 / 10) * bbp.w
  let y2 := bbp.y + (11 / 10) * bbp.h
  let primary : Roi :=
    ⟨(batch : ℚ), (hyp.objID : ℚ), x1, y1, x2, y2,
     qt.1.1, qt.1.2.1, qt.1.2.2.1, qt.1.2.2.2, qt.2.1, qt.2.2.1, qt.2.2.2⟩
  let w := x2 - x1
  let h := y2 - y1
  [primary,
   jitterRoi primary x1 y1 w h (-(1 / 20)) (-(1 / 20)),
   jitterRoi primary x1 y1 w h (1 / 20) (-(1 / 20)),
   jitterRoi primary x1 y1 w h (-(1 / 20)) (1 / 20),
   jitterRoi primary x1 y1 w h (1 / 20) (1 / 20)]

/-- `estimateCenter`: one detection pass over one image of the batch, with
the source's constants `minArea = 400`, `inlierThreshold3D = 0.5`,
`ransacIterations = 256`, `maxPixels = 1000`, `refIt = 8`,
`poseIterations = 100`. -/
def estimateCenter (E : Ext) (lm : Nat → Nat) (vert : Nat → ℚ) (extents : Nat → ℚ)
    (batch height width numClasses preemptiveBatch : Nat)
    (fx fy px py : ℚ) : List Roi :=
  let minArea := 400
  let labels := buildLabels lm width height
  let object_ids := activeIds labels numClasses minArea
  let bb3Ds := getBb3Ds E extents numClasses
  let cam : Cam := ⟨fx, fy, px, py⟩
  if object_ids.isEmpty then []
  else
    let st0 := initialState E vert object_ids labels width numClasses 256
    let C : LoopCfg := ⟨E, vert, labels, 1 / 2, width, numClasses, preemptiveBatch, 1000, 8⟩
    let stF := ransacLoop C st0
    stF.flatMap fun kh => kh.2.flatMap (outputHyp E cam width height bb3Ds batch)

/-! ### Target and weight encoding (`compute_target_weight`) -/

/-- C-style truncation of a float to `int`. -/
def truncQ (q : ℚ) : ℤ :=
  Int.tdiv q.num (q.den : ℤ)

/-- The ground-truth search: first record index whose class and batch match. -/
def gtMatch (gt : Nat → ℚ) (numGt : Nat) (batchId classId : ℤ) : Option Nat :=
  (List.range numGt).find? fun j =>
    truncQ (gt (j * 13 + 1)) = classId ∧ truncQ (gt (j * 13)) = batchId

/-- Four consecutive stores into a flat array modelled as a function. -/
def upd4 (f : ℤ → ℚ) (base : ℤ) (v0 v1 v2 v3 : ℚ) : ℤ → ℚ :=
  Function.update (Function.update (Function.update (Function.update f
    base v0) (base + 1) v1) (base + 2) v2) (base + 3) v3

/-- The body of `compute_target_weight` for output row `i`: a ground-truth
miss leaves the arrays untouched; a hit stores record fields 6..9 into the
four target slots of the matched class and ones into the weight slots. -/
def writeRow (gt : Nat → ℚ) (numGt numClasses i : Nat) (roi : Roi)
    (tw : (ℤ → ℚ) × (ℤ → ℚ)) : (ℤ → ℚ) × (ℤ → ℚ) :=
  let batchId := truncQ roi.batch
  let classId := truncQ roi.cls
  match gtMatch gt numGt batchId classId with
  | none => tw
  | some g =>
    let base : ℤ := (i : ℤ) * (4 * numClasses) + 4 * classId
    (upd4 tw.1 base (gt (g * 13 + 6)) (gt (g * 13 + 7)) (gt (g * 13 + 8)) (gt (g * 13 + 9)),
     upd4 tw.2 base 1 1 1 1)

/-- The all-zero record (only used as an out-of-range default). -/
def roiZero : Roi :=
  ⟨0, 0, 0, 0, 0, 0, 0, 0, 0, 0, 0, 0, 0⟩

/-- `compute_target_weight` over the zero-initialized arrays (the caller
`Compute` memsets both before the call). -/
def compute_target_weight (gt : Nat → ℚ) (numGt numClasses : Nat)
    (outputs : List Roi) : (ℤ → ℚ) × (ℤ → ℚ) :=
  (List.range outputs.length).foldl
    (fun tw i => writeRow gt numGt numClasses i (outputs.getD i roiZero) tw)
    (fun _ => 0, fun _ => 0)

/-! ### Concrete instantiation data -/

/-- The 64×64 label map of the spec's concrete scenario: one foreground
class (id 1) on the 20×20 block `[10,30) × [10,30)` — exactly 400 pixels. -/
def lmC4 (p : Nat) : Nat :=
  if 10 ≤ p % 64 ∧ p % 64 < 30 ∧ 10 ≤ p / 64 ∧ p / 64 < 30 then 1 else 0

/-- The zero-noise vote field of that scenario: at every pixel the class-1
vote is the exact direction towards the true center (20, 20). -/
def vertC4 (o : Nat) : ℚ :=
  let p := o / 4
  let ch := o % 4
  if ch = 2 then (20 : ℚ) - (p % 64 : Nat)
  else if ch = 3 then (20 : ℚ) - (p / 64 : Nat)
  else 0

/-- Extents for the scenario (any values; class 1 is a unit box). -/
def extentsC4 : Nat → ℚ := fun _ => 1

/-- A loop configuration over an empty pixel list, used to instantiate the
loop theorems on concrete states. -/
def cfgW : LoopCfg :=
  ⟨extDefault, fun _ => 0, fun _ => [], 1 / 2, 4, 2, 0, 1000, 8⟩

/-- A concrete fresh hypothesis for class 1. -/
def hypW : TransHyp :=
  ⟨1, (0, 0), [], 0, 0, 0, 0⟩

/-- Three concrete hypotheses of one class with inlier counts 5, 3, 1. -/
def hypsC2 : List TransHyp :=
  [⟨1, (0, 0), [], 5, 0, 0, 0⟩, ⟨1, (0, 0), [], 3, 0, 0, 0⟩, ⟨1, (0, 0), [], 1, 0, 0, 0⟩]

/-- A concrete primary output record with box (0, 0)–(10, 20). -/
def roiC1 : Roi :=
  ⟨0, 1, 0, 0, 10, 20, 1, 0, 0, 0, 0, 0, 0⟩

/-- Two concrete hypotheses agreeing on class id, center and pixel budget but
differing in every other field. -/
def hypC10a : TransHyp :=
  ⟨2, (3, 4), [], 7, 9, 5, 3⟩

def hypC10b : TransHyp :=
  ⟨2, (3, 4), [((1, 2), (3, 4))], 0, 0, 5, 11⟩

/-- A one-record ground-truth list matching batch 0, class 1, with pose
target fields 6, 7, 8, 9 at record offsets 6..9. -/
def gtC6 : Nat → ℚ :=
  fun n => if n = 1 then 1 else if 6 ≤ n ∧ n ≤ 9 then (n : ℚ) else 0

/-! ## Theorems -/

theorem buildLabelsLoop_eq (lm : Nat → Nat) (w h : Nat) :
    buildLabelsLoop lm w h = buildLabels lm w h := by
  funext j
  suffices H : ∀ (ps : List Nat) (acc : Nat → List Nat),
      ps.foldl (fun acc p j => if j = lm p then acc j ++ [p] else acc j) acc j
        = acc j ++ ps.filter (fun p => lm p = j) by
    simpa [buildLabelsLoop, buildLabels] using H (pixelOrder w h) (fun _ => [])
  intro ps
  induction ps with
  | nil => simp
  | cons p ps ih =>
    intro acc
    by_cases hp : lm p = j
    · simp [List.filter_cons, hp, ih, List.append_assoc]
    · have hj : ¬ j = lm p := fun hj => hp hj.symm
      simp [List.filter_cons, hp, hj, ih]

/-! ### Basic field-preservation lemmas -/

theorem countInliers2D_objID (E : Ext) (vert : Nat → ℚ) (labels : Nat → List Nat)
    (thr : ℚ) (w nc pb : Nat) (h : TransHyp) :
    (countInliers2D E vert labels thr w nc pb h).objID = h.objID := rfl

theorem countInliers2D_refSteps (E : Ext) (vert : Nat → ℚ) (labels : Nat → List Nat)
    (thr : ℚ) (w nc pb : Nat) (h : TransHyp) :
    (countInliers2D E vert labels thr w nc pb h).refSteps = h.refSteps := rfl

theorem filterInliers2D_objID (E : Ext) (h : TransHyp) (m : Nat) :
    (filterInliers2D E h m).objID = h.objID := by
  unfold filterInliers2D; split <;> rfl

theorem filterInliers2D_refSteps (E : Ext) (h : TransHyp) (m : Nat) :
    (filterInliers2D E h m).refSteps = h.refSteps := by
  unfold filterInliers2D; split <;> rfl

theorem updateHyp2D_objID (E : Ext) (h : TransHyp) (m : Nat) :
    (updateHyp2D E h m).objID = h.objID := by
  unfold updateHyp2D; split
  · rfl
  · simp [filterInliers2D_objID]

theorem updateHyp2D_refSteps (E : Ext) (h : TransHyp) (m : Nat) :
    (updateHyp2D E h m).refSteps = h.refSteps := by
  unfold updateHyp2D; split
  · rfl
  · simp [filterInliers2D_refSteps]

theorem refineOne_objID (E : Ext) (m : Nat) (h : TransHyp) :
    (refineOne E m h).objID = h.objID := by
  simp [refineOne, updateHyp2D_objID]

theorem refineOne_refSteps (E : Ext) (m : Nat) (h : TransHyp) :
    (refineOne E m h).refSteps = h.refSteps + 1 := by
  simp [refineOne, updateHyp2D_refSteps]

/-! ### Bucket phase lemmas -/

theorem countBucket_length (C : LoopCfg) (b : List TransHyp) :
    (countBucket C b).length = b.length := by
  simp [countBucket]

theorem refineBucket_length (C : LoopCfg) (b : List TransHyp) :
    (refineBucket C b).length = b.length := by
  simp [refineBucket]

theorem cullClass_length_eq (b : List TransHyp) (hb : 1 < b.length) :
    (cullClass b).length = b.length / 2 := by
  have hperm := List.perm_insertionSort hypRank b
  simp [cullClass, hb, hperm.length_eq]
  omega

theorem cullClass_length_le (b : List TransHyp) :
    (cullClass b).length ≤ b.length := by
  by_cases hb : 1 < b.length
  · rw [cullClass_length_eq b hb]; omega
  · simp [cullClass, hb]

theorem cullClass_length_lt (b : List TransHyp) (hb : 1 < b.length) :
    (cullClass b).length < b.length := by
  rw [cullClass_length_eq b hb]; omega

theorem cullClass_mem (b : List TransHyp) (h : TransHyp) (hm : h ∈ cullClass b) :
    h ∈ b := by
  unfold cullClass at hm
  split at hm
  · exact (List.perm_insertionSort hypRank b).mem_iff.mp (List.mem_of_mem_take hm)
  · exact hm

theorem bucketBody_length_le (C : LoopCfg) (b : List TransHyp) :
    (bucketBody C b).length ≤ b.length := by
  unfold bucketBody
  rw [refineBucket_length]
  calc (cullClass (countBucket C b)).length ≤ (countBucket C b).length :=
        cullClass_length_le _
    _ = b.length := countBucket_length C b

theorem bucketBody_length_lt (C : LoopCfg) (b : List TransHyp) (hb : 1 < b.length) :
    (bucketBody C b).length < b.length := by
  unfold bucketBody
  rw [refineBucket_length]
  calc (cullClass (countBucket C b)).length < (countBucket C b).length :=
        cullClass_length_lt _ (by rw [countBucket_length]; exact hb)
    _ = b.length := countBucket_length C b

/-! ### Measure lemmas -/

theorem hypWeight_pos (refIt : Nat) (h : TransHyp) : 1 ≤ hypWeight refIt h := by
  simp [hypWeight]

theorem phiB_countBucket (C : LoopCfg) (b : List TransHyp) :
    phiB C.refIt (countBucket C b) = phiB C.refIt b := by
  unfold phiB countBucket
  rw [List.map_map]
  congr 1
  apply List.map_congr_left
  intro h _
  by_cases hq : inQueue C.refIt b h
  · simp [hq, hypWeight, countInliers2D_refSteps]
  · simp [hq]

theorem phiB_split (refIt : Nat) (s : List TransHyp) (k : Nat) :
    phiB refIt s = phiB refIt (s.take k) + phiB refIt (s.drop k) := by
  conv_lhs => rw [← List.take_append_drop k s]
  simp [phiB]

theorem length_le_phiB (refIt : Nat) (s : List TransHyp) : s.length ≤ phiB refIt s := by
  have h1 : (s.map (hypWeight refIt)).length ≤ (s.map (hypWeight refIt)).sum :=
    List.length_le_sum_of_one_le _ (by
      intro x hx
      rcases List.mem_map.mp hx with ⟨h, _, rfl⟩
      exact hypWeight_pos refIt h)
  simpa [phiB] using h1

theorem phiB_perm (refIt : Nat) {s t : List TransHyp} (hp : s.Perm t) :
    phiB refIt s = phiB refIt t :=
  (hp.map (hypWeight refIt)).sum_eq

theorem phiB_cullClass_lt (refIt : Nat) (b : List TransHyp) (hb : 1 < b.length) :
    phiB refIt (cullClass b) < phiB refIt b := by
  have hperm := List.perm_insertionSort hypRank b
  have hsum : phiB refIt (List.insertionSort hypRank b) = phiB refIt b := phiB_perm refIt hperm
  have hsplit := phiB_split refIt (List.insertionSort hypRank b) (b.length / 2)
  have hdroplen : 1 ≤ ((List.insertionSort hypRank b).drop (b.length / 2)).length := by
    rw [List.length_drop, hperm.length_eq]
    omega
  have hdrop := length_le_phiB refIt ((List.insertionSort hypRank b).drop (b.length / 2))
  unfold cullClass
  rw [if_pos hb]
  omega

theorem phiB_cullClass_le (refIt : Nat) (b : List TransHyp) :
    phiB refIt (cullClass b) ≤ phiB refIt b := by
  by_cases hb : 1 < b.length
  · exact le_of_lt (phiB_cullClass_lt refIt b hb)
  · simp [cullClass, hb]

theorem hypWeight_refineOne_le (E : Ext) (m refIt : Nat) (h : TransHyp) :
    hypWeight refIt (refineOne E m h) ≤ hypWeight refIt h := by
  simp [hypWeight, refineOne_refSteps]
  omega

theorem hypWeight_refineOne_lt (E : Ext) (m refIt : Nat) (h : TransHyp)
    (hlt : h.refSteps < refIt) :
    hypWeight refIt (refineOne E m h) < hypWeight refIt h := by
  simp [hypWeight, refineOne_refSteps]
  omega

theorem phiB_refineBucket_le (C : LoopCfg) (b : List TransHyp) :
    phiB C.refIt (refineBucket C b) ≤ phiB C.refIt b := by
  unfold phiB refineBucket
  rw [List.map_map]
  apply List.sum_le_sum
  intro h _
  by_cases hq : inQueue C.refIt b h
  · simpa [hq] using hypWeight_refineOne_le C.E C.maxPixels C.refIt h
  · simp [hq]

theorem phiB_bucketBody_le (C : LoopCfg) (b : List TransHyp) :
    phiB C.refIt (bucketBody C b) ≤ phiB C.refIt b := by
  unfold bucketBody
  calc phiB C.refIt (refineBucket C (cullClass (countBucket C b)))
      ≤ phiB C.refIt (cullClass (countBucket C b)) := phiB_refineBucket_le _ _
    _ ≤ phiB C.refIt (countBucket C b) := phiB_cullClass_le _ _
    _ = phiB C.refIt b := phiB_countBucket C b

theorem phiB_bucketBody_lt (C : LoopCfg) (b : List TransHyp)
    (hact : b.any (inQueue C.refIt b) = true) :
    phiB C.refIt (bucketBody C b) < phiB C.refIt b := by
  rcases List.any_eq_true.mp hact with ⟨h, hm, hq⟩
  by_cases hlen : 1 < b.length
  · unfold bucketBody
    calc phiB C.refIt (refineBucket C (cullClass (countBucket C b)))
        ≤ phiB C.refIt (cullClass (countBucket C b)) := phiB_refineBucket_le _ _
      _ < phiB C.refIt (countBucket C b) :=
          phiB_cullClass_lt _ _ (by rw [countBucket_length]; exact hlen)
      _ = phiB C.refIt b := phiB_countBucket C b
  · have hrs : h.refSteps < C.refIt := by
      simp [inQueue, hlen] at hq
      exact hq
    have hb1 : b = [h] := by
      cases b with
      | nil => simp at hm
      | cons x xs =>
        cases xs with
        | nil => simp at hm; simp [hm]
        | cons y ys => simp at hlen
    subst hb1
    have hq1 : inQueue C.refIt [h] h = true := by simp [inQueue, hrs]
    have hcrs := countInliers2D_refSteps C.E C.vert C.labels C.thr C.width C.numClasses
      C.pixelBatch h
    have h1 : countBucket C [h]
        = [countInliers2D C.E C.vert C.labels C.thr C.width C.numClasses C.pixelBatch h] := by
      simp [countBucket, hq1]
    have h2 : cullClass [countInliers2D C.E C.vert C.labels C.thr C.width C.numClasses
        C.pixelBatch h] = [countInliers2D C.E C.vert C.labels C.thr C.width C.numClasses
        C.pixelBatch h] := by
      simp [cullClass]
    have hq2 : inQueue C.refIt [countInliers2D C.E C.vert C.labels C.thr C.width
        C.numClasses C.pixelBatch h] (countInliers2D C.E C.vert C.labels C.thr C.width
        C.numClasses C.pixelBatch h) = true := by
      simp [inQueue, hcrs, hrs]
    unfold bucketBody
    rw [h1, h2]
    unfold refineBucket
    simp only [List.map]
    rw [hq2]
    simp only [if_true, phiB, List.map, List.sum_cons, List.sum_nil]
    have hlt := hypWeight_refineOne_lt C.E C.maxPixels C.refIt
      (countInliers2D C.E C.vert C.labels C.thr C.width C.numClasses C.pixelBatch h)
      (by rw [hcrs]; exact hrs)
    have heq : hypWeight C.refIt (countInliers2D C.E C.vert C.labels C.thr C.width
        C.numClasses C.pixelBatch h) = hypWeight C.refIt h := by
      simp [hypWeight, hcrs]
    omega

theorem phi_loopBody_lt (C : LoopCfg) (st : HypState)
    (hne : queueNonempty C.refIt st = true) :
    phi C.refIt (loopBody C st) < phi C.refIt st := by
  unfold phi loopBody
  rw [List.map_map]
  apply List.sum_lt_sum
  · intro kh _
    exact phiB_bucketBody_le C kh.2
  · rcases List.any_eq_true.mp hne with ⟨kh, hm, hq⟩
    exact ⟨kh, hm, phiB_bucketBody_lt C kh.2 hq⟩

theorem queueNonempty_phi_pos (refIt : Nat) (st : HypState)
    (h : queueNonempty refIt st = true) : 0 < phi refIt st := by
  rcases List.any_eq_true.mp h with ⟨kh, hm, hq⟩
  rcases List.any_eq_true.mp hq with ⟨x, hx, _⟩
  have h1 : 1 ≤ phiB refIt kh.2 := le_trans (by
    have := List.length_pos_of_mem hx
    omega) (length_le_phiB refIt kh.2)
  have h2 : phiB refIt kh.2 ≤ phi refIt st := by
    unfold phi
    exact List.single_le_sum (by intro x _; exact Nat.zero_le x) _
      (List.mem_map_of_mem _ hm)
  omega

theorem ransacLoopFuel_done (C : LoopCfg) (fuel : Nat) :
    ∀ st : HypState, phi C.refIt st ≤ fuel →
      queueNonempty C.refIt (ransacLoopFuel C fuel st) = false := by
  induction fuel with
  | zero =>
    intro st hle
    by_contra hq
    have := queueNonempty_phi_pos C.refIt st (by
      cases h : queueNonempty C.refIt st
      · exact absurd h (by simpa [ransacLoopFuel] using hq)
      · rfl)
    simp [ransacLoopFuel] at hq
    omega
  | succ n ih =>
    intro st hle
    unfold ransacLoopFuel
    by_cases hq : queueNonempty C.refIt st = true
    · rw [if_pos hq]
      exact ih _ (by have := phi_loopBody_lt C st hq; omega)
    · rw [if_neg (by simpa using hq)]
      simpa using hq

theorem ransacLoop_done (C : LoopCfg) (st : HypState) :
    queueNonempty C.refIt (ransacLoop C st) = false :=
  ransacLoopFuel_done C (phi C.refIt st) st le_rfl

theorem queueEmpty_spec (refIt : Nat) (st : HypState)
    (hq : queueNonempty refIt st = false) :
    ∀ kh ∈ st, ∀ h ∈ kh.2, kh.2.length ≤ 1 ∧ refIt ≤ h.refSteps := by
  intro kh hm h hh
  have h1 := List.any_eq_false.mp hq kh hm
  rw [Bool.not_eq_true] at h1
  have h2 := List.any_eq_false.mp h1 h hh
  simp [inQueue] at h2
  omega

/-! ### Registry well-formedness through the loop -/

theorem countBucket_objID_sub (C : LoopCfg) (b : List TransHyp) :
    ∀ h' ∈ countBucket C b, ∃ h ∈ b, h'.objID = h.objID := by
  intro h' hm
  rcases List.mem_map.mp hm with ⟨h, hh, rfl⟩
  by_cases hq : inQueue C.refIt b h
  · exact ⟨h, hh, by simp [hq, countInliers2D_objID]⟩
  · exact ⟨h, hh, by simp [hq]⟩

theorem refineBucket_objID_sub (C : LoopCfg) (b : List TransHyp) :
    ∀ h' ∈ refineBucket C b, ∃ h ∈ b, h'.objID = h.objID := by
  intro h' hm
  rcases List.mem_map.mp hm with ⟨h, hh, rfl⟩
  by_cases hq : inQueue C.refIt b h
  · exact ⟨h, hh, by simp [hq, refineOne_objID]⟩
  · exact ⟨h, hh, by simp [hq]⟩

theorem bucketBody_objID_sub (C : LoopCfg) (b : List TransHyp) :
    ∀ h' ∈ bucketBody C b, ∃ h ∈ b, h'.objID = h.objID := by
  intro h' hm
  unfold bucketBody at hm
  rcases refineBucket_objID_sub C _ h' hm with ⟨h2, hm2, he2⟩
  have hm3 := cullClass_mem _ _ hm2
  rcases countBucket_objID_sub C b h2 hm3 with ⟨h4, hm4, he4⟩
  exact ⟨h4, hm4, he2.trans he4⟩

theorem loopBody_wf (C : LoopCfg) (ids : List Nat) (st : HypState)
    (hwf : ∀ kh ∈ st, kh.1 ∈ ids ∧ ∀ h ∈ kh.2, h.objID = kh.1) :
    ∀ kh ∈ loopBody C st, kh.1 ∈ ids ∧ ∀ h ∈ kh.2, h.objID = kh.1 := by
  intro kh hm
  rcases List.mem_map.mp hm with ⟨kh0, hm0, rfl⟩
  rcases hwf kh0 hm0 with ⟨hid, hall⟩
  refine ⟨hid, ?_⟩
  intro h hh
  rcases bucketBody_objID_sub C kh0.2 h hh with ⟨h0, hm1, he⟩
  exact he.trans (hall h0 hm1)

theorem ransacLoopFuel_wf (C : LoopCfg) (ids : List Nat) (fuel : Nat) :
    ∀ st : HypState, (∀ kh ∈ st, kh.1 ∈ ids ∧ ∀ h ∈ kh.2, h.objID = kh.1) →
      ∀ kh ∈ ransacLoopFuel C fuel st, kh.1 ∈ ids ∧ ∀ h ∈ kh.2, h.objID = kh.1 := by
  induction fuel with
  | zero => intro st hwf; simpa [ransacLoopFuel] using hwf
  | succ n ih =>
    intro st hwf
    unfold ransacLoopFuel
    by_cases hq : queueNonempty C.refIt st = true
    · rw [if_pos hq]
      exact ih _ (loopBody_wf C ids st hwf)
    · rw [if_neg (by simpa using hq)]
      exact hwf

theorem initialState_wf (E : Ext) (vert : Nat → ℚ) (ids : List Nat)
    (labels : Nat → List Nat) (w nc n : Nat) :
    ∀ kh ∈ initialState E vert ids labels w nc n,
      kh.1 ∈ ids ∧ ∀ h ∈ kh.2, h.objID = kh.1 := by
  intro kh hm
  rcases List.mem_map.mp hm with ⟨k, hk, rfl⟩
  refine ⟨hk, ?_⟩
  intro h hh
  simp only at hh ⊢
  exact of_decide_eq_true (List.mem_filter.mp hh).2

/-! ### Active-class facts -/

theorem activeIds_spec (labels : Nat → List Nat) (nc m : Nat) :
    ∀ i ∈ activeIds labels nc m, 1 ≤ i ∧ i < nc ∧ m < (labels i).length := by
  intro i hm
  unfold activeIds at hm
  have h1 := List.of_mem_filter hm
  have h2 := List.mem_of_mem_filter hm
  have h3 := List.mem_of_mem_drop h2
  have h4 : i < nc := List.mem_range.mp h3
  have h5 : 1 ≤ i := by
    rcases List.mem_iff_getElem.mp h2 with ⟨j, hj, he⟩
    rw [List.getElem_drop, List.getElem_range] at he
    omega
  exact ⟨h5, h4, of_decide_eq_true h1⟩

/-! ### Output record class ids -/

theorem jitterRoi_cls (r : Roi) (x1 y1 w h sx sy : ℚ) :
    (jitterRoi r x1 y1 w h sx sy).cls = r.cls := rfl

theorem outputHyp_cls (E : Ext) (cam : Cam) (w h : Nat)
    (bb3Ds : List (List (ℚ × ℚ × ℚ))) (batch : Nat) (hyp : TransHyp) :
    ∀ roi ∈ outputHyp E cam w h bb3Ds batch hyp, roi.cls = (hyp.objID : ℚ) := by
  intro roi hm
  unfold outputHyp at hm
  simp only [List.mem_cons, List.mem_singleton, List.not_mem_nil, or_false] at hm
  rcases hm with rfl | rfl | rfl | rfl | rfl <;> simp [jitterRoi_cls]

/-! ### Shared helper facts for the claims -/

theorem bucketBody_singleton (C : LoopCfg) (h : TransHyp) (hrs : h.refSteps < C.refIt) :
    bucketBody C [h] = [refineOne C.E C.maxPixels
      (countInliers2D C.E C.vert C.labels C.thr C.width C.numClasses C.pixelBatch h)] := by
  have hq1 : inQueue C.refIt [h] h = true := by simp [inQueue, hrs]
  have hcrs := countInliers2D_refSteps C.E C.vert C.labels C.thr C.width C.numClasses
    C.pixelBatch h
  have hq2 : inQueue C.refIt [countInliers2D C.E C.vert C.labels C.thr C.width
      C.numClasses C.pixelBatch h] (countInliers2D C.E C.vert C.labels C.thr C.width
      C.numClasses C.pixelBatch h) = true := by
    simp [inQueue, hcrs, hrs]
  unfold bucketBody
  have h1 : countBucket C [h]
      = [countInliers2D C.E C.vert C.labels C.thr C.width C.numClasses C.pixelBatch h] := by
    simp [countBucket, hq1]
  rw [h1]
  have h2 : cullClass [countInliers2D C.E C.vert C.labels C.thr C.width C.numClasses
      C.pixelBatch h] = [countInliers2D C.E C.vert C.labels C.thr C.width C.numClasses
      C.pixelBatch h] := by
    simp [cullClass]
  rw [h2]
  unfold refineBucket
  simp only [List.map]
  rw [hq2]
  simp

theorem ransacLoop_wf (C : LoopCfg) (ids : List Nat) (st : HypState)
    (hwf : ∀ kh ∈ st, kh.1 ∈ ids ∧ ∀ h ∈ kh.2, h.objID = kh.1) :
    ∀ kh ∈ ransacLoop C st, kh.1 ∈ ids ∧ ∀ h ∈ kh.2, h.objID = kh.1 :=
  ransacLoopFuel_wf C ids (phi C.refIt st) st hwf

theorem estimateCenter_of_no_active (E : Ext) (lm : Nat → Nat) (vert extents : Nat → ℚ)
    (batch height width numClasses preempt : Nat) (fx fy px py : ℚ)
    (hids : activeIds (buildLabels lm width height) numClasses 400 = []) :
    estimateCenter E lm vert extents batch height width numClasses preempt fx fy px py
      = [] := by
  simp [estimateCenter, hids]

theorem poseWithOpt_eq (E : Ext) (vec : Fin 6 → ℚ) (data : DataForOpt) (it : Nat) :
    poseWithOpt E vec data it = E.optimize (optEnergy E data) vec
      (fun i => vec i - ![E.PI, E.PI, E.PI, 1 / 10, 1 / 10, 1 / 2] i)
      (fun i => vec i + ![E.PI, E.PI, E.PI, 1 / 10, 1 / 10, 1 / 2] i) it := by
  simp only [poseWithOpt]
  have h180 : (180 : ℚ) * (E.PI / 180) = E.PI := by ring
  rw [h180]
  have hlb : (![vec 0 - E.PI, vec 1 - E.PI, vec 2 - E.PI,
      vec 3 - 1 / 10, vec 4 - 1 / 10, vec 5 - 1 / 2] : Fin 6 → ℚ)
      = fun i => vec i - ![E.PI, E.PI, E.PI, 1 / 10, 1 / 10, 1 / 2] i := by
    funext i
    fin_cases i <;> rfl
  have hub : (![vec 0 + E.PI, vec 1 + E.PI, vec 2 + E.PI,
      vec 3 + 1 / 10, vec 4 + 1 / 10, vec 5 + 1 / 2] : Fin 6 → ℚ)
      = fun i => vec i + ![E.PI, E.PI, E.PI, 1 / 10, 1 / 10, 1 / 2] i := by
    funext i
    fin_cases i <;> rfl
  rw [hlb, hub]

/-! ### C3 -/

/-- C3: every record emitted by a detection pass carries a nonzero class id
whose pixel count strictly exceeds the minimum-area threshold of 400. -/
theorem c3_no_background_no_small_class (E : Ext) (lm : Nat → Nat)
    (vert extents : Nat → ℚ) (batch height width numClasses preempt : Nat)
    (fx fy px py : ℚ) :
    List.Forall (fun roi => ∃ c : Nat, roi.cls = (c : ℚ) ∧ c ≠ 0 ∧
        400 < ((pixelOrder width height).filter (fun p => lm p = c)).length)
      (estimateCenter E lm vert extents batch height width numClasses preempt
        fx fy px py) := by
  rw [List.forall_iff_forall_mem]
  intro roi hm
  simp only [estimateCenter] at hm
  split at hm
  · simp at hm
  · rcases List.mem_flatMap.mp hm with ⟨kh, hkh, hroi⟩
    rcases List.mem_flatMap.mp hroi with ⟨hyp, hhyp, hout⟩
    rcases ransacLoop_wf _ (activeIds (buildLabels lm width height) numClasses 400) _
      (initialState_wf E vert _ _ width numClasses 256) kh hkh with ⟨hid, hall⟩
    have hobj : hyp.objID = kh.1 := hall hyp hhyp
    have hcls := outputHyp_cls _ _ _ _ _ _ _ roi hout
    rcases activeIds_spec _ _ _ kh.1 hid with ⟨h1, _, hcnt⟩
    refine ⟨hyp.objID, hcls, by omega, ?_⟩
    rw [hobj]
    exact hcnt

/-! ### C9 -/

/-- C9: the background-rejection branch of the sampler is dead code — every
id in the active-class list is at least 1, so the sampler with the guard
equals the sampler without it. -/
theorem c9_background_guard_dead (E : Ext) (vert : Nat → ℚ) (labels : Nat → List Nat)
    (nc minArea width numClasses slot : Nat)
    (hne : activeIds labels nc minArea ≠ []) :
    (∀ i ∈ activeIds labels nc minArea, 1 ≤ i) ∧
    sampleSlot E vert (activeIds labels nc minArea) labels width numClasses slot
      = sampleSlotNoGuard E vert (activeIds labels nc minArea) labels width numClasses
          slot := by
  refine ⟨fun i hi => (activeIds_spec labels nc minArea i hi).1, ?_⟩
  have hlen : 0 < (activeIds labels nc minArea).length := List.length_pos.mpr hne
  have hmem : (activeIds labels nc minArea).getD
      (E.rand (3 * slot) % (activeIds labels nc minArea).length) 0
      ∈ activeIds labels nc minArea := by
    rw [List.getD_eq_getElem _ _ (Nat.mod_lt _ hlen)]
    exact List.getElem_mem _
  have h1 := (activeIds_spec labels nc minArea _ hmem).1
  unfold sampleSlot sampleSlotNoGuard
  rw [if_neg (by omega)]

/-! ### C4 -/

set_option maxRecDepth 10000 in
theorem estimateCenter_c4_empty (E : Ext) (batch preempt : Nat) (fx fy px py : ℚ) :
    estimateCenter E lmC4 vertC4 extentsC4 batch 64 64 2 preempt fx fy px py = [] := by
  apply estimateCenter_of_no_active
  have hcount : (buildLabels lmC4 64 64 1).length = 400 := by decide
  unfold activeIds
  have hr : (List.range 2).drop 1 = [1] := rfl
  rw [hr]
  simp [hcount]

/-- C4 counterexample: on the spec's concrete 64×64 scenario (single class on
a 20×20 block, exactly 400 pixels, intrinsics fx=fy=100, px=py=32) the pass
emits nothing at all — not one surviving hypothesis. -/
theorem c4_counterexample :
    estimateCenter extDefault lmC4 vertC4 extentsC4 0 64 64 2 1000 100 100 32 32 = [] :=
  estimateCenter_c4_empty extDefault 0 1000 100 100 32 32

/-- C4 amended: the 400-pixel class sits exactly at the threshold, and a
class enters the registry only with strictly more than 400 pixels, so the
pass produces no hypothesis and no detection for it, whatever the
randomness, intrinsics or batch. -/
theorem c4_amended (E : Ext) (batch preempt : Nat) (fx fy px py : ℚ) :
    estimateCenter E lmC4 vertC4 extentsC4 batch 64 64 2 preempt fx fy px py = [] :=
  estimateCenter_c4_empty E batch preempt fx fy px py

/-! ### Target/weight characterization (`compute_target_weight`) -/

theorem writeRow_frame (gt : Nat → ℚ) (numGt nc i : Nat) (roi : Roi)
    (tw : (ℤ → ℚ) × (ℤ → ℚ)) (idx : ℤ)
    (hc : 0 ≤ truncQ roi.cls ∧ truncQ roi.cls < (nc : ℤ))
    (hout : idx < (i : ℤ) * (4 * nc) ∨ (i : ℤ) * (4 * nc) + 4 * nc ≤ idx) :
    (writeRow gt numGt nc i roi tw).1 idx = tw.1 idx ∧
    (writeRow gt numGt nc i roi tw).2 idx = tw.2 idx := by
  simp only [writeRow]
  cases hg : gtMatch gt numGt (truncQ roi.batch) (truncQ roi.cls) with
  | none => exact ⟨rfl, rfl⟩
  | some g =>
    simp only [upd4, Function.update_apply]
    generalize hA : (i : ℤ) * (4 * (nc : ℤ)) = A at *
    rcases hc with ⟨hc0, hc1⟩
    constructor <;>
      · split_ifs
        any_goals (exfalso; omega)
        all_goals rfl

theorem writeRow_inrow_miss (gt : Nat → ℚ) (numGt nc i : Nat) (roi : Roi)
    (tw : (ℤ → ℚ) × (ℤ → ℚ)) (j : Nat)
    (hout : (j : ℤ) < 4 * truncQ roi.cls ∨ 4 * truncQ roi.cls + 4 ≤ (j : ℤ)) :
    (writeRow gt numGt nc i roi tw).1 ((i * (4 * nc) + j : ℕ) : ℤ)
      = tw.1 ((i * (4 * nc) + j : ℕ) : ℤ) ∧
    (writeRow gt numGt nc i roi tw).2 ((i * (4 * nc) + j : ℕ) : ℤ)
      = tw.2 ((i * (4 * nc) + j : ℕ) : ℤ) := by
  simp only [writeRow]
  cases hg : gtMatch gt numGt (truncQ roi.batch) (truncQ roi.cls) with
  | none => exact ⟨rfl, rfl⟩
  | some g =>
    simp only [upd4, Function.update_apply]
    have hcast : ((i * (4 * nc) + j : ℕ) : ℤ) = (i : ℤ) * (4 * (nc : ℤ)) + (j : ℤ) := by
      push_cast
      ring
    rw [hcast]
    generalize hA : (i : ℤ) * (4 * (nc : ℤ)) = A at *
    constructor <;>
      · split_ifs
        any_goals (exfalso; omega)
        all_goals rfl

theorem writeRow_hit (gt : Nat → ℚ) (numGt nc i : Nat) (roi : Roi)
    (tw : (ℤ → ℚ) × (ℤ → ℚ)) (g : Nat)
    (hg : gtMatch gt numGt (truncQ roi.batch) (truncQ roi.cls) = some g)
    (k : Nat) (hk : k < 4) :
    (writeRow gt numGt nc i roi tw).1 ((i : ℤ) * (4 * nc) + 4 * truncQ roi.cls + k)
      = gt (g * 13 + 6 + k) ∧
    (writeRow gt numGt nc i roi tw).2 ((i : ℤ) * (4 * nc) + 4 * truncQ roi.cls + k)
      = 1 := by
  simp only [writeRow]
  rw [hg]
  simp only [upd4, Function.update_apply]
  generalize hA : (i : ℤ) * (4 * (nc : ℤ)) = A at *
  constructor <;>
    · interval_cases k <;> split_ifs <;>
        first
          | (exfalso; omega)
          | norm_num

theorem writeRow_none (gt : Nat → ℚ) (numGt nc i : Nat) (roi : Roi)
    (tw : (ℤ → ℚ) × (ℤ → ℚ))
    (hg : gtMatch gt numGt (truncQ roi.batch) (truncQ roi.cls) = none) :
    writeRow gt numGt nc i roi tw = tw := by
  simp [writeRow, hg]

theorem rowsep_le (nc a b : Nat) (hab : a < b) :
    (a : ℤ) * (4 * nc) + 4 * nc ≤ (b : ℤ) * (4 * nc) := by
  have h : (a : ℤ) + 1 ≤ (b : ℤ) := by exact_mod_cast hab
  have h2 := mul_le_mul_of_nonneg_right h (show (0 : ℤ) ≤ 4 * nc by positivity)
  calc (a : ℤ) * (4 * nc) + 4 * nc = ((a : ℤ) + 1) * (4 * nc) := by ring
    _ ≤ (b : ℤ) * (4 * nc) := h2

theorem ctw_fold_frame (gt : Nat → ℚ) (numGt nc : Nat) (outputs : List Roi)
    (hcls : ∀ roi ∈ outputs, 0 ≤ truncQ roi.cls ∧ truncQ roi.cls < (nc : ℤ))
    (l : List Nat) (idx : ℤ)
    (hl : ∀ r ∈ l, r < outputs.length ∧
      (idx < (r : ℤ) * (4 * nc) ∨ (r : ℤ) * (4 * nc) + 4 * nc ≤ idx)) :
    ∀ tw : (ℤ → ℚ) × (ℤ → ℚ),
      ((l.foldl (fun tw r => writeRow gt numGt nc r (outputs.getD r roiZero) tw) tw).1 idx
        = tw.1 idx) ∧
      ((l.foldl (fun tw r => writeRow gt numGt nc r (outputs.getD r roiZero) tw) tw).2 idx
        = tw.2 idx) := by
  induction l with
  | nil => exact fun tw => ⟨rfl, rfl⟩
  | cons a l ih =>
    intro tw
    rcases hl a (List.mem_cons_self a l) with ⟨ha1, ha2⟩
    have hroi : outputs.getD a roiZero ∈ outputs := by
      rw [List.getD_eq_getElem _ _ ha1]
      exact List.getElem_mem _
    have hfr := writeRow_frame gt numGt nc a (outputs.getD a roiZero) tw idx
      (hcls _ hroi) ha2
    simp only [List.foldl_cons]
    have hrec := ih (fun r hr => hl r (List.mem_cons_of_mem a hr))
      (writeRow gt numGt nc a (outputs.getD a roiZero) tw)
    exact ⟨hrec.1.trans hfr.1, hrec.2.trans hfr.2⟩

theorem ctw_split (gt : Nat → ℚ) (nc numGt : Nat) (outputs : List Roi) (i : Nat)
    (hi : i < outputs.length) :
    compute_target_weight gt numGt nc outputs
      = ((List.range (outputs.length - (i + 1))).map (fun x => (i + 1) + x)).foldl
          (fun tw r => writeRow gt numGt nc r (outputs.getD r roiZero) tw)
          (writeRow gt numGt nc i (outputs.getD i roiZero)
            ((List.range i).foldl
              (fun tw r => writeRow gt numGt nc r (outputs.getD r roiZero) tw)
              (fun _ => 0, fun _ => 0))) := by
  have hsplit : List.range outputs.length
      = (List.range i ++ [i])
        ++ (List.range (outputs.length - (i + 1))).map (fun x => (i + 1) + x) := by
    rw [← List.range_succ, ← List.range_add]
    congr 1
    omega
  unfold compute_target_weight
  rw [hsplit, List.foldl_append, List.foldl_append]
  rfl

theorem writeRow_congr_at (gt : Nat → ℚ) (numGt nc i : Nat) (roi : Roi)
    (tw tw' : (ℤ → ℚ) × (ℤ → ℚ)) (idx : ℤ)
    (h1 : tw.1 idx = tw'.1 idx) (h2 : tw.2 idx = tw'.2 idx) :
    (writeRow gt numGt nc i roi tw).1 idx = (writeRow gt numGt nc i roi tw').1 idx ∧
    (writeRow gt numGt nc i roi tw).2 idx = (writeRow gt numGt nc i roi tw').2 idx := by
  simp only [writeRow]
  cases hg : gtMatch gt numGt (truncQ roi.batch) (truncQ roi.cls) with
  | none => exact ⟨h1, h2⟩
  | some g =>
    simp only [upd4, Function.update_apply]
    constructor <;> split_ifs <;> simp [h1, h2]

theorem ctw_at_row (gt : Nat → ℚ) (numGt nc : Nat) (outputs : List Roi)
    (hcls : ∀ roi ∈ outputs, 0 ≤ truncQ roi.cls ∧ truncQ roi.cls < (nc : ℤ))
    (i : Nat) (hi : i < outputs.length) (idx : ℤ)
    (hin1 : (i : ℤ) * (4 * nc) ≤ idx) (hin2 : idx < (i : ℤ) * (4 * nc) + 4 * nc) :
    (compute_target_weight gt numGt nc outputs).1 idx
      = (writeRow gt numGt nc i (outputs.getD i roiZero) (fun _ => 0, fun _ => 0)).1 idx ∧
    (compute_target_weight gt numGt nc outputs).2 idx
      = (writeRow gt numGt nc i (outputs.getD i roiZero) (fun _ => 0, fun _ => 0)).2 idx := by
  rw [ctw_split gt nc numGt outputs i hi]
  have hsuf := ctw_fold_frame gt numGt nc outputs hcls
    ((List.range (outputs.length - (i + 1))).map (fun x => (i + 1) + x)) idx
    (by
      intro r hr
      rcases List.mem_map.mp hr with ⟨x, hx, rfl⟩
      have hxlt := List.mem_range.mp hx
      refine ⟨by omega, Or.inl ?_⟩
      have hsep := rowsep_le nc i (i + 1 + x) (by omega)
      omega)
    (writeRow gt numGt nc i (outputs.getD i roiZero)
      ((List.range i).foldl
        (fun tw r => writeRow gt numGt nc r (outputs.getD r roiZero) tw)
        (fun _ => 0, fun _ => 0)))
  have hpre := ctw_fold_frame gt numGt nc outputs hcls (List.range i) idx
    (by
      intro r hr
      have hrlt := List.mem_range.mp hr
      refine ⟨by omega, Or.inr ?_⟩
      have hsep := rowsep_le nc r i hrlt
      omega)
    (fun _ => 0, fun _ => 0)
  have hcongr := writeRow_congr_at gt numGt nc i (outputs.getD i roiZero)
    ((List.range i).foldl
      (fun tw r => writeRow gt numGt nc r (outputs.getD r roiZero) tw)
      (fun _ => 0, fun _ => 0))
    (fun _ => 0, fun _ => 0) idx hpre.1 hpre.2
  exact ⟨hsuf.1.trans hcongr.1, hsuf.2.trans hcongr.2⟩

/-- C6: for every output row, a ground-truth miss leaves the whole
`4*num_classes` target and weight row at zero; a hit stores the matched
record's fields 6..9 into exactly the four slots of the matched class (with
weight 1) and leaves every other slot of the row at zero. -/
theorem c6_target_weight (gt : Nat → ℚ) (numGt numClasses : Nat) (outputs : List Roi)
    (hcls : ∀ roi ∈ outputs, 0 ≤ truncQ roi.cls ∧ truncQ roi.cls < (numClasses : ℤ))
    (i : Nat) (hi : i < outputs.length) :
    (gtMatch gt numGt (truncQ (outputs.getD i roiZero).batch)
        (truncQ (outputs.getD i roiZero).cls) = none →
      ∀ j : Nat, j < 4 * numClasses →
        (compute_target_weight gt numGt numClasses outputs).1
            ((i * (4 * numClasses) + j : ℕ) : ℤ) = 0 ∧
        (compute_target_weight gt numGt numClasses outputs).2
            ((i * (4 * numClasses) + j : ℕ) : ℤ) = 0) ∧
    (∀ g, gtMatch gt numGt (truncQ (outputs.getD i roiZero).batch)
        (truncQ (outputs.getD i roiZero).cls) = some g →
      (∀ k : Nat, k < 4 →
        (compute_target_weight gt numGt numClasses outputs).1
            ((i : ℤ) * (4 * numClasses) + 4 * truncQ (outputs.getD i roiZero).cls + k)
          = gt (g * 13 + 6 + k) ∧
        (compute_target_weight gt numGt numClasses outputs).2
            ((i : ℤ) * (4 * numClasses) + 4 * truncQ (outputs.getD i roiZero).cls + k)
          = 1) ∧
      (∀ j : Nat, j < 4 * numClasses →
        ((j : ℤ) < 4 * truncQ (outputs.getD i roiZero).cls ∨
          4 * truncQ (outputs.getD i roiZero).cls + 4 ≤ (j : ℤ)) →
        (compute_target_weight gt numGt numClasses outputs).1
            ((i * (4 * numClasses) + j : ℕ) : ℤ) = 0 ∧
        (compute_target_weight gt numGt numClasses outputs).2
            ((i * (4 * numClasses) + j : ℕ) : ℤ) = 0)) := by
  have hroi : outputs.getD i roiZero ∈ outputs := by
    rw [List.getD_eq_getElem _ _ hi]
    exact List.getElem_mem _
  rcases hcls _ hroi with ⟨hc0, hc1⟩
  have hcast : ∀ j : Nat, ((i * (4 * numClasses) + j : ℕ) : ℤ)
      = (i : ℤ) * (4 * (numClasses : ℤ)) + (j : ℤ) := by
    intro j
    push_cast
    ring
  constructor
  · intro hg j hj
    have hat := ctw_at_row gt numGt numClasses outputs hcls i hi
      ((i * (4 * numClasses) + j : ℕ) : ℤ)
      (by rw [hcast]; generalize (i : ℤ) * (4 * (numClasses : ℤ)) = A; omega)
      (by rw [hcast]; generalize (i : ℤ) * (4 * (numClasses : ℤ)) = A; omega)
    rw [hat.1, hat.2, writeRow_none gt numGt numClasses i _ _ hg]
    exact ⟨rfl, rfl⟩
  · intro g hg
    constructor
    · intro k hk
      have hat := ctw_at_row gt numGt numClasses outputs hcls i hi
        ((i : ℤ) * (4 * numClasses) + 4 * truncQ (outputs.getD i roiZero).cls + k)
        (by generalize (i : ℤ) * (4 * (numClasses : ℤ)) = A; omega)
        (by generalize (i : ℤ) * (4 * (numClasses : ℤ)) = A; omega)
      rw [hat.1, hat.2]
      exact writeRow_hit gt numGt numClasses i _ _ g hg k hk
    · intro j hj hout
      have hat := ctw_at_row gt numGt numClasses outputs hcls i hi
        ((i * (4 * numClasses) + j : ℕ) : ℤ)
        (by rw [hcast]; generalize (i : ℤ) * (4 * (numClasses : ℤ)) = A; omega)
        (by rw [hcast]; generalize (i : ℤ) * (4 * (numClasses : ℤ)) = A; omega)
      rw [hat.1, hat.2]
      have hmiss := writeRow_inrow_miss gt numGt numClasses i (outputs.getD i roiZero)
        (fun _ => 0, fun _ => 0) j hout
      rw [hmiss.1, hmiss.2]
      exact ⟨rfl, rfl⟩

/-! ### C7 -/

/-- C7: per loop iteration, each class's hypothesis count never increases and
strictly decreases while above one; a lone queued survivor's refinement-step
counter goes up by exactly one; and the loop (with the configured minimum of
8 refinement steps) always reaches the state where every remaining bucket
holds at most one hypothesis, each refined at least 8 times. -/
theorem c7_loop_terminates (C : LoopCfg) (hC : C.refIt = 8) :
    (∀ b : List TransHyp, (bucketBody C b).length ≤ b.length ∧
      (1 < b.length → (bucketBody C b).length < b.length)) ∧
    (∀ h : TransHyp, h.refSteps < 8 →
      ∃ h' : TransHyp, bucketBody C [h] = [h'] ∧ h'.refSteps = h.refSteps + 1) ∧
    (∀ st : HypState, queueNonempty 8 (ransacLoop C st) = false ∧
      ∀ kh ∈ ransacLoop C st, ∀ h ∈ kh.2, kh.2.length ≤ 1 ∧ 8 ≤ h.refSteps) := by
  refine ⟨fun b => ⟨bucketBody_length_le C b, fun hb => bucketBody_length_lt C b hb⟩,
    ?_, ?_⟩
  · intro h hrs
    refine ⟨_, bucketBody_singleton C h (by omega), ?_⟩
    rw [refineOne_refSteps, countInliers2D_refSteps]
  · intro st
    have hdone := ransacLoop_done C st
    rw [hC] at hdone
    exact ⟨hdone, queueEmpty_spec 8 _ hdone⟩

/-- C7 witness: a lone class-1 hypothesis with counter 0 comes out of one
loop iteration with counter 1. -/
theorem c7_witness :
    ∃ h' : TransHyp, bucketBody cfgW [hypW] = [h'] ∧ h'.refSteps = hypW.refSteps + 1 :=
  (c7_loop_terminates cfgW rfl).2.1 hypW (by decide)

/-! ### C2 -/

/-- C2 counterexample: a class holding 3 hypotheses keeps 1 after the cull,
not the ceil(3/2) = 2 the claim predicts. -/
theorem c2_counterexample : ¬ (cullClass hypsC2).length = 2 := by decide

/-- C2 amended: the cull keeps the `floor(n/2)` best-ranked hypotheses
(ranked by inlier count, descending, ties by insertion order) and discards
the other `ceil(n/2)`: every survivor's inlier count is at least that of
every discarded hypothesis. -/
theorem c2_amended (b : List TransHyp) (hb : 1 < b.length) :
    (cullClass b).length = b.length / 2 ∧
    ∀ x ∈ cullClass b, ∀ y ∈ (List.insertionSort hypRank b).drop (b.length / 2),
      y.inliers ≤ x.inliers := by
  refine ⟨cullClass_length_eq b hb, ?_⟩
  have hsorted : List.Sorted hypRank (List.insertionSort hypRank b) :=
    List.sorted_insertionSort hypRank b
  have hsplit := List.take_append_drop (b.length / 2) (List.insertionSort hypRank b)
  rw [← hsplit] at hsorted
  have hcross := (List.pairwise_append.mp hsorted).2.2
  intro x hx y hy
  have hx2 : x ∈ (List.insertionSort hypRank b).take (b.length / 2) := by
    unfold cullClass at hx
    rw [if_pos hb] at hx
    exact hx
  exact hcross x hx2 y hy

/-- C2 witness: the amended cull count at the concrete 3-hypothesis bucket. -/
theorem c2_witness : 1 < hypsC2.length ∧ (cullClass hypsC2).length = hypsC2.length / 2 :=
  ⟨by decide, (c2_amended hypsC2 (by decide)).1⟩

/-! ### C5 -/

/-- C5 counterexample: a queued hypothesis with fewer than 4 inlier
correspondences is not left entirely unchanged by the refinement phase —
its refinement-step counter moves. -/
theorem c5_counterexample : ¬ refineBucket cfgW [hypW] = [hypW] := by decide

/-- C5 amended: the refinement step leaves the center, inlier list and
inlier count of a hypothesis with fewer than 4 correspondences unchanged,
but still increments its refinement-step counter. -/
theorem c5_amended (E : Ext) (m : Nat) (h : TransHyp)
    (hlt : h.inlierPts2D.length < 4) :
    refineOne E m h = { h with refSteps := h.refSteps + 1 } := by
  simp [refineOne, updateHyp2D, hlt]

/-- C5 witness. -/
theorem c5_witness :
    refineOne extDefault 1000 hypW = { hypW with refSteps := hypW.refSteps + 1 } :=
  c5_amended extDefault 1000 hypW (by decide)

/-! ### C10 -/

/-- C10: inlier counting is a deterministic function of the hypothesis's
class id, center and accumulated pixel budget (together with the shared
vote field and pixel lists): the skip-sampling engine is default-constructed
on every call, so its draw stream is the same fixed sequence each time. -/
theorem c10_inlier_count_deterministic (E : Ext) (vert : Nat → ℚ)
    (labels : Nat → List Nat) (thr : ℚ) (w nc pb : Nat) (h1 h2 : TransHyp)
    (ho : h1.objID = h2.objID) (hc : h1.center = h2.center)
    (hmp : h1.maxPixels = h2.maxPixels) :
    (countInliers2D E vert labels thr w nc pb h1).inlierPts2D
      = (countInliers2D E vert labels thr w nc pb h2).inlierPts2D ∧
    (countInliers2D E vert labels thr w nc pb h1).inliers
      = (countInliers2D E vert labels thr w nc pb h2).inliers ∧
    (countInliers2D E vert labels thr w nc pb h1).effPixels
      = (countInliers2D E vert labels thr w nc pb h2).effPixels ∧
    (countInliers2D E vert labels thr w nc pb h1).maxPixels
      = (countInliers2D E vert labels thr w nc pb h2).maxPixels := by
  unfold countInliers2D
  simp [ho, hc, hmp]

/-- C10 witness: the two concrete hypotheses share the triple but differ in
their inlier data and counters. -/
theorem c10_witness :
    (countInliers2D extDefault (fun _ => 0) (fun _ => []) (1 / 2) 4 2 3 hypC10a).inlierPts2D
      = (countInliers2D extDefault (fun _ => 0) (fun _ => []) (1 / 2) 4 2 3 hypC10b).inlierPts2D ∧
    (countInliers2D extDefault (fun _ => 0) (fun _ => []) (1 / 2) 4 2 3 hypC10a).inliers
      = (countInliers2D extDefault (fun _ => 0) (fun _ => []) (1 / 2) 4 2 3 hypC10b).inliers ∧
    (countInliers2D extDefault (fun _ => 0) (fun _ => []) (1 / 2) 4 2 3 hypC10a).effPixels
      = (countInliers2D extDefault (fun _ => 0) (fun _ => []) (1 / 2) 4 2 3 hypC10b).effPixels ∧
    (countInliers2D extDefault (fun _ => 0) (fun _ => []) (1 / 2) 4 2 3 hypC10a).maxPixels
      = (countInliers2D extDefault (fun _ => 0) (fun _ => []) (1 / 2) 4 2 3 hypC10b).maxPixels :=
  c10_inlier_count_deterministic extDefault (fun _ => 0) (fun _ => []) (1 / 2) 4 2 3
    hypC10a hypC10b rfl rfl rfl

/-! ### C1 -/

/-- C1 (code bug): on the concrete primary record with box (0,0)–(10,20),
the first jittered record does not preserve the primary's width or height —
the source stores into slot 4 twice (`roi(4) = roi(2) + w` immediately
overwritten by `roi(4) = roi(3) + h`) and never updates slot 5 — while the
batch, class and the seven pose fields are shared as the claim states. -/
theorem c1_jitter_bug :
    (jitterRoi roiC1 roiC1.x1 roiC1.y1 (roiC1.x2 - roiC1.x1) (roiC1.y2 - roiC1.y1)
        (-(1 / 20)) (-(1 / 20))).x2
      - (jitterRoi roiC1 roiC1.x1 roiC1.y1 (roiC1.x2 - roiC1.x1) (roiC1.y2 - roiC1.y1)
        (-(1 / 20)) (-(1 / 20))).x1
      ≠ roiC1.x2 - roiC1.x1 ∧
    (jitterRoi roiC1 roiC1.x1 roiC1.y1 (roiC1.x2 - roiC1.x1) (roiC1.y2 - roiC1.y1)
        (-(1 / 20)) (-(1 / 20))).y2
      - (jitterRoi roiC1 roiC1.x1 roiC1.y1 (roiC1.x2 - roiC1.x1) (roiC1.y2 - roiC1.y1)
        (-(1 / 20)) (-(1 / 20))).y1
      ≠ roiC1.y2 - roiC1.y1 ∧
    (jitterRoi roiC1 roiC1.x1 roiC1.y1 (roiC1.x2 - roiC1.x1) (roiC1.y2 - roiC1.y1)
        (-(1 / 20)) (-(1 / 20))).batch = roiC1.batch ∧
    (jitterRoi roiC1 roiC1.x1 roiC1.y1 (roiC1.x2 - roiC1.x1) (roiC1.y2 - roiC1.y1)
        (-(1 / 20)) (-(1 / 20))).cls = roiC1.cls ∧
    (jitterRoi roiC1 roiC1.x1 roiC1.y1 (roiC1.x2 - roiC1.x1) (roiC1.y2 - roiC1.y1)
        (-(1 / 20)) (-(1 / 20))).qw = roiC1.qw := by
  refine ⟨?_, ?_, rfl, rfl, rfl⟩ <;> norm_num [jitterRoi, roiC1]

/-! ### C8 -/

/-- C8: every record emitted for a surviving hypothesis carries the pose
produced by the bounded derivative-free search that starts at the guess
(0, 0, 0, (cx-px)/fx, (cy-py)/fy, 1) — zero rotation, XY back-projected from
the 2D box center at unit depth, Z = 1 — over the box `±PI` per rotation
axis, `±0.1` in XY and `±0.5` in Z around that guess, minimizing the
negative IoU of the projected 3D box against the inferred 2D box, under the
fixed evaluation budget 100. -/
theorem c8_pose_search_config (E : Ext) (cam : Cam) (width height : Nat)
    (bb3Ds : List (List (ℚ × ℚ × ℚ))) (batch : Nat) (hyp : TransHyp) :
    let wh := E.computeWH hyp
    let bx1 := max (hyp.center.1 - wh.1 / 2) 0
    let by1 := max (hyp.center.2 - wh.2 / 2) 0
    let bx2 := min (hyp.center.1 + wh.1 / 2) (width : ℚ)
    let by2 := min (hyp.center.2 + wh.2 / 2) (height : ℚ)
    let cx := (bx1 + bx2) / 2
    let cy := (by1 + by2) / 2
    let vec0 : Fin 6 → ℚ := ![0, 0, 0, (cx - cam.px) / cam.fx, (cy - cam.py) / cam.fy, 1]
    let bnd : Fin 6 → ℚ := ![E.PI, E.PI, E.PI, 1 / 10, 1 / 10, 1 / 2]
    let vec := E.optimize
      (fun pose => -(E.getIoU
        (E.getBB2D width height (bb3Ds.getD (hyp.objID - 1) []) cam pose)
        ⟨bx1, by1, bx2 - bx1, by2 - by1⟩))
      vec0 (fun i => vec0 i - bnd i) (fun i => vec0 i + bnd i) 100
    List.Forall (fun roi =>
        roi.qw = (E.cv2our vec).1.1 ∧ roi.qx = (E.cv2our vec).1.2.1 ∧
        roi.qy = (E.cv2our vec).1.2.2.1 ∧ roi.qz = (E.cv2our vec).1.2.2.2 ∧
        roi.tx = (E.cv2our vec).2.1 ∧ roi.ty = (E.cv2our vec).2.2.1 ∧
        roi.tz = (E.cv2our vec).2.2.2)
      (outputHyp E cam width height bb3Ds batch hyp) := by
  simp only [outputHyp, poseWithOpt_eq, optEnergy, jitterRoi]
  exact ⟨⟨rfl, rfl, rfl, rfl, rfl, rfl, rfl⟩, ⟨rfl, rfl, rfl, rfl, rfl, rfl, rfl⟩,
    ⟨rfl, rfl, rfl, rfl, rfl, rfl, rfl⟩, ⟨rfl, rfl, rfl, rfl, rfl, rfl, rfl⟩,
    ⟨rfl, rfl, rfl, rfl, rfl, rfl, rfl⟩⟩

/-- C9 witness: a concrete active-class list instantiating the dead-guard
equation. -/
theorem c9_witness :
    (∀ i ∈ activeIds (fun _ => [0, 1, 2]) 2 0, 1 ≤ i) ∧
    sampleSlot extDefault (fun _ => 0) (activeIds (fun _ => [0, 1, 2]) 2 0)
        (fun _ => [0, 1, 2]) 4 2 0
      = sampleSlotNoGuard extDefault (fun _ => 0) (activeIds (fun _ => [0, 1, 2]) 2 0)
        (fun _ => [0, 1, 2]) 4 2 0 :=
  c9_background_guard_dead extDefault (fun _ => 0) (fun _ => [0, 1, 2]) 2 0 4 2 0
    (by decide)

/-- C6 witness: a miss leaves a row slot at zero; a hit writes the matched
record's field into the matched class slot with weight 1. -/
theorem c6_witness :
    ((compute_target_weight (fun _ => 0) 0 2 [roiC1]).1 ((0 * (4 * 2) + 3 : ℕ) : ℤ) = 0 ∧
     (compute_target_weight (fun _ => 0) 0 2 [roiC1]).2 ((0 * (4 * 2) + 3 : ℕ) : ℤ) = 0) ∧
    ((compute_target_weight gtC6 1 2 [roiC1]).1
        (((0 : ℕ) : ℤ) * (4 * (2 : ℕ)) + 4 * truncQ ([roiC1].getD 0 roiZero).cls + ((0 : ℕ) : ℤ))
      = gtC6 (0 * 13 + 6 + 0) ∧
     (compute_target_weight gtC6 1 2 [roiC1]).2
        (((0 : ℕ) : ℤ) * (4 * (2 : ℕ)) + 4 * truncQ ([roiC1].getD 0 roiZero).cls + ((0 : ℕ) : ℤ))
      = 1) := by
  constructor
  · exact (c6_target_weight (fun _ => 0) 0 2 [roiC1] (by decide) 0 (by decide)).1 rfl 3
      (by decide)
  · exact ((c6_target_weight gtC6 1 2 [roiC1] (by decide) 0 (by decide)).2 0
      (by decide)).1 0 (by decide)

end Hough
